import Mathlib

/-!
Verification of the date arithmetic and growth simulation in `src/app.js`
(a client-side compound-interest projection calculator).

The JavaScript code manipulates `Date` objects that are always normalized to
midnight (`normalizeDate` strips the time of day), so a date is modelled by
its calendar components.  ECMAScript date arithmetic (`Date.UTC`, `setDate`,
`getDay`, timestamp comparison) works through the day number — days since the
Unix epoch 1970-01-01 — so the embedding provides `toDays` (the day number of
calendar components, which is `Date.UTC(y, m, d)` divided by `MS_PER_DAY`) and
`ofDays` (the calendar components read back off a midnight timestamp), and
proves they are mutually inverse (`toDays_ofDays`, `ofDays_valid`).

Division notes: `/` and `%` on `Int` are euclidean division, which for the
positive divisors used throughout (4, 7, 12, 100, 400, 146097) coincides with
the real-valued-floor semantics of the JavaScript code (`Math.floor(x / 12)`,
and the sign-corrected `((x % 12) + 12) % 12`).  JavaScript's `%` truncates
toward zero, which differs from euclidean `%` only on negative operands and
agrees with it on whether the remainder is zero — the only way `%` is used
(`daysBetween(...) % 7 === 0`).

Money amounts and rates are rationals: the spec promises no floating-point
precision guarantees, and the claims under verification concern the exact
update structure of the simulation.
-/

/- The Batteries rational arithmetic definitions are irreducible by default;
they are restored to ordinary reducibility here so that concrete simulation
runs can be evaluated by `decide`. -/
attribute [local semireducible] Rat.mul Rat.add Rat.sub Rat.inv

namespace App

/-- Calendar date as JavaScript holds it after `normalizeDate`: `year` is the
full year, `month` the 0-based month index, `day` the 1-based day of month.
Normalized dates carry no time of day. -/
structure Date where
  year : Int
  month : Int
  day : Int
deriving DecidableEq, Repr

/-- Gregorian leap-year rule, as ECMAScript date arithmetic uses it. -/
def isLeap (y : Int) : Bool :=
  (y % 4 == 0 && y % 100 != 0) || y % 400 == 0

/-- Number of days in 0-based month `month` of `year`, as
`new Date(year, monthIndex + 1, 0).getDate()` computes it (src/app.js,
`daysInMonth`). -/
def daysInMonth (year month : Int) : Int :=
  if month = 1 then if isLeap year then 29 else 28
  else if month = 3 ∨ month = 5 ∨ month = 8 ∨ month = 10 then 30
  else 31

/-- Number of days in year `y` (366 in leap years). -/
def yearLength (y : Int) : Int := if isLeap y then 366 else 365

/-- Number of Gregorian leap years `k` with `1 ≤ k < y`, extended to all
integers by floor division. -/
def leapCount (y : Int) : Int := (y - 1) / 4 - (y - 1) / 100 + (y - 1) / 400

/-- Day number of January 1 of year `y`, in days since the epoch 1970-01-01. -/
def daysFromYear (y : Int) : Int :=
  365 * (y - 1970) + leapCount y - leapCount 1970

/-- Days of year `y` that precede the first of 0-based month `m`. -/
def monthOffset (y m : Int) : Int :=
  let l : Int := if isLeap y then 1 else 0
  if m = 0 then 0 else if m = 1 then 31 else if m = 2 then 59 + l
  else if m = 3 then 90 + l else if m = 4 then 120 + l else if m = 5 then 151 + l
  else if m = 6 then 181 + l else if m = 7 then 212 + l else if m = 8 then 243 + l
  else if m = 9 then 273 + l else if m = 10 then 304 + l else 334 + l

/-- ECMAScript day number of a date: days since the epoch.  For canonical
date components, `Date.UTC(y, m, d)` equals `86400000 * toDays ⟨y, m, d⟩`. -/
def toDays (d : Date) : Int :=
  daysFromYear d.year + monthOffset d.year d.month + d.day - 1

/-- Date components are canonical: month in `[0, 11]`, day within the month. -/
def Valid (d : Date) : Prop :=
  0 ≤ d.month ∧ d.month ≤ 11 ∧ 1 ≤ d.day ∧ d.day ≤ daysInMonth d.year d.month

instance (d : Date) : Decidable (Valid d) := by
  unfold Valid; infer_instance

/-- Walk forward through the months of year `y` starting at 0-based month
`m`, consuming `rem` whole days; lands on the calendar date `rem` days after
the first of month `m`.  `fuel` bounds the walk (11 suffices from January). -/
def monthScan : Nat → Int → Int → Int → Date
  | 0, y, m, rem => ⟨y, m, rem + 1⟩
  | fuel+1, y, m, rem =>
      if rem < daysInMonth y m then ⟨y, m, rem + 1⟩
      else monthScan fuel y (m + 1) (rem - daysInMonth y m)

/-- Walk forward through whole years starting at `y`, consuming `rem` days;
lands on the calendar date `rem` days after January 1 of `y`.  `fuel` bounds
the walk (399 suffices when `rem` is below 146097, the days of 400 years). -/
def yearScan : Nat → Int → Int → Date
  | 0, y, rem => monthScan 11 y 0 rem
  | fuel+1, y, rem =>
      if rem < yearLength y then monthScan 11 y 0 rem
      else yearScan fuel (y + 1) (rem - yearLength y)

/-- Calendar components of an ECMAScript day number: the inverse of `toDays`,
i.e. how a midnight-normalized timestamp is read back as year, month and day.
The day number is first reduced modulo the 400-year cycle of 146097 days
(anchored at 2000-01-01, day number 10957) and the remainder is resolved by
scanning years and months. -/
def ofDays (z : Int) : Date :=
  let era := (z - 10957) / 146097
  let doe := (z - 10957) % 146097
  yearScan 399 (2000 + 400 * era) doe

/-- `normalizeDate` (src/app.js:9-11) rebuilds a date from its year, month and
day, stripping the time of day.  The embedding carries no time of day, so it
is the identity. -/
def normalizeDate (date : Date) : Date := date

/-- `addDays` (src/app.js:13-17): `setDate(getDate() + days)` shifts the
timestamp by whole days (ECMAScript `MakeDay` arithmetic), and the result is
normalized; on day numbers that is addition. -/
def addDays (date : Date) (days : Int) : Date :=
  ofDays (toDays date + days)

/-- `daysBetween` (src/app.js:19-23): the difference of the two `Date.UTC`
values divided by `MS_PER_DAY`; the division is exact for date-only values so
`Math.round` is the identity, leaving the difference of day numbers. -/
def daysBetween (start stop : Date) : Int :=
  toDays stop - toDays start

/-- JavaScript `Math.min` on two integers. -/
def jsMin (a b : Int) : Int :=
  if a ≤ b then a else b

/-- `addMonths` (src/app.js:29-37).  `Math.floor(targetMonth / 12)` is floor
division (euclidean `/` here, the divisor being positive) and
`((targetMonth % 12) + 12) % 12` produces the same non-negative residue as
euclidean `%` does directly. -/
def addMonths (date : Date) (months : Int) : Date :=
  let targetMonth := date.month + months
  let targetYear := date.year + targetMonth / 12
  let normalizedMonth := (targetMonth % 12 + 12) % 12
  let day := jsMin date.day (daysInMonth targetYear normalizedMonth)
  ⟨targetYear, normalizedMonth, day⟩

/-- `addYears` (src/app.js:39-41). -/
def addYears (date : Date) (years : Int) : Date :=
  addMonths date (years * 12)

/-- ECMAScript `getDay()`: day of week, 0 = Sunday; the epoch day (1970-01-01)
was a Thursday, day 4. -/
def getDay (date : Date) : Int :=
  (toDays date + 4) % 7

/-- `isWeekday` (src/app.js:43-46): Monday (1) through Friday (5). -/
def isWeekday (date : Date) : Bool :=
  let day := getDay date
  decide (1 ≤ day ∧ day ≤ 5)

/-- `isMonthlyEvent` (src/app.js:48-54). -/
def isMonthlyEvent (date startDate : Date) : Bool :=
  let targetDay := jsMin startDate.day (daysInMonth date.year date.month)
  date.day == targetDay

/-- `isWeeklyEvent` (src/app.js:56-58).  JavaScript `%` truncates toward zero
while `%` here is euclidean, but both remainders are zero for exactly the
same operands, which is all `=== 0` observes. -/
def isWeeklyEvent (date startDate : Date) : Bool :=
  daysBetween startDate date % 7 == 0

/-- `isEventDay` (src/app.js:60-68): any tag other than `"weekday"` and
`"weekly"` falls through to the monthly predicate. -/
def isEventDay (date startDate : Date) (frequency : String) : Bool :=
  if frequency = "weekday" then isWeekday date
  else if frequency = "weekly" then isWeeklyEvent date startDate
  else isMonthlyEvent date startDate

/-- `getEndDate` (src/app.js:70-78): any tag other than `"weeks"` and
`"months"` falls through to `addYears`. -/
def getEndDate (startDate : Date) (timeValue : Int) (timeUnit : String) : Date :=
  if timeUnit = "weeks" then addDays startDate (timeValue * 7)
  else if timeUnit = "months" then addMonths startDate timeValue
  else addYears startDate timeValue

/-- `getCompoundAnchor` (src/app.js:80-88). -/
def getCompoundAnchor (startDate : Date) (compoundFrequency : String) : Date :=
  if compoundFrequency = "weekly" then addDays startDate 7
  else if compoundFrequency = "monthly" then addMonths startDate 1
  else startDate

/-- `applyInterest` (src/app.js:90-95). -/
def applyInterest (balance ratePerPeriod : ℚ) : ℚ :=
  if ratePerPeriod ≤ 0 then balance
  else balance * (1 + ratePerPeriod / 100)

/-- `Number(balance.toFixed(2))` (src/app.js:116): rounding to 2 decimal
places, to nearest, a tie taking the larger candidate (the `toFixed`
rounding rule), i.e. `⌊100x + 1/2⌋ / 100`.  Written on the numerator and
denominator directly: for `100x = n/d` with `d > 0`,
`⌊n/d + 1/2⌋ = (2n + d) / (2d)` by floor division. -/
def round2 (x : ℚ) : ℚ :=
  let y := x * 100
  Rat.divInt ((2 * y.num + (y.den : Int)) / (2 * (y.den : Int))) 100

/-- Input record of `simulateGrowth` (src/app.js:97-105), as supplied by the
form layer after clamping. -/
structure SimulationInput where
  startingAmount : ℚ
  annualRate : ℚ
  compoundFrequency : String
  depositAmount : ℚ
  depositFrequency : String
  timeValue : Int
  timeUnit : String
deriving DecidableEq, Repr

/-- Result record of `simulateGrowth` (src/app.js:131-136).  A label is
rendered with `toLocaleDateString()`, a locale-dependent formatting of the
date; the label is modelled as the date itself. -/
structure SimulationResult where
  labels : List Date
  series : List ℚ
  finalBalance : ℚ
  endDate : Date
deriving DecidableEq, Repr

/-- Body of the day loop of `simulateGrowth` (src/app.js:119-129), returning
the labels, the series and the final balance.  The JavaScript loop runs
`date` from `startDate` while `date <= endDate` (timestamp comparison, i.e.
day-number comparison for normalized dates), stepping `addDays(date, 1)`.
The `fuel` argument bounds the iteration count; `simulateGrowth` passes
`toDays endDate - toDays startDate + 1`, which makes the fuel run out exactly
when the guard first fails, so the fuelled loop equals the guarded
JavaScript loop. -/
def simLoop (endN : Int) (startDate anchor : Date) (depositAmount annualRate : ℚ)
    (depositFrequency compoundFrequency : String) :
    Nat → Date → ℚ → List Date × List ℚ × ℚ
  | 0, _, balance => ([], [], balance)
  | fuel + 1, date, balance =>
      if toDays date ≤ endN then
        let b1 := if 0 < depositAmount ∧ isEventDay date startDate depositFrequency = true
          then balance + depositAmount else balance
        let b2 := if isEventDay date anchor compoundFrequency = true
          then applyInterest b1 annualRate else b1
        let rest := simLoop endN startDate anchor depositAmount annualRate
          depositFrequency compoundFrequency fuel (addDays date 1) b2
        (date :: rest.1, round2 b2 :: rest.2.1, rest.2.2)
      else ([], [], balance)

/-- `simulateGrowth` (src/app.js:97-137).  The JavaScript reads the wall
clock: `startDate` is today normalized to midnight; the embedding takes
today's day number as the parameter `today`. -/
def simulateGrowth (today : Int) (input : SimulationInput) : SimulationResult :=
  let startDate := normalizeDate (ofDays today)
  let endDate := getEndDate startDate input.timeValue input.timeUnit
  let compoundAnchor := getCompoundAnchor startDate input.compoundFrequency
  let fuel := (toDays endDate - toDays startDate + 1).toNat
  let r := simLoop (toDays endDate) startDate compoundAnchor input.depositAmount
    input.annualRate input.depositFrequency input.compoundFrequency fuel startDate
    input.startingAmount
  ⟨r.1, r.2.1, r.2.2, endDate⟩

/-- Number of loop days on which the compounding predicate fires, with the
same guard, step and fuel discipline as `simLoop`. -/
def countEventDays (endN : Int) (anchor : Date) (frequency : String) :
    Nat → Date → Nat
  | 0, _ => 0
  | fuel + 1, date =>
      if toDays date ≤ endN then
        (if isEventDay date anchor frequency = true then 1 else 0) +
          countEventDays endN anchor frequency fuel (addDays date 1)
      else 0

/-- Number of days of a whole `simulateGrowth` run on which the compounding
predicate fires. -/
def compoundEventCount (today : Int) (input : SimulationInput) : Nat :=
  let startDate := normalizeDate (ofDays today)
  let endDate := getEndDate startDate input.timeValue input.timeUnit
  countEventDays (toDays endDate) (getCompoundAnchor startDate input.compoundFrequency)
    input.compoundFrequency ((toDays endDate - toDays startDate + 1).toNat) startDate

/-- Spec-side shadow of the day loop: the sequence of unrounded running
balances at the end of each simulated day (the spec's balance snapshots
before their 2-decimal rounding), and the final accumulator value. -/
def runningBalances (endN : Int) (startDate anchor : Date)
    (depositAmount annualRate : ℚ) (depositFrequency compoundFrequency : String) :
    Nat → Date → ℚ → List ℚ × ℚ
  | 0, _, balance => ([], balance)
  | fuel + 1, date, balance =>
      if toDays date ≤ endN then
        let b1 := if 0 < depositAmount ∧ isEventDay date startDate depositFrequency = true
          then balance + depositAmount else balance
        let b2 := if isEventDay date anchor compoundFrequency = true
          then applyInterest b1 annualRate else b1
        let rest := runningBalances endN startDate anchor depositAmount annualRate
          depositFrequency compoundFrequency fuel (addDays date 1) b2
        (b2 :: rest.1, rest.2)
      else ([], balance)

/-- Spec-side shadow of a whole `simulateGrowth` run: its unrounded running
balances and final accumulator value. -/
def runBalances (today : Int) (input : SimulationInput) : List ℚ × ℚ :=
  let startDate := normalizeDate (ofDays today)
  let endDate := getEndDate startDate input.timeValue input.timeUnit
  let compoundAnchor := getCompoundAnchor startDate input.compoundFrequency
  let fuel := (toDays endDate - toDays startDate + 1).toNat
  runningBalances (toDays endDate) startDate compoundAnchor input.depositAmount
    input.annualRate input.depositFrequency input.compoundFrequency fuel startDate
    input.startingAmount

/-- One day's balance update of the loop (steps 5a and 5b of the spec): the
deposit followed by the compounding, as `simLoop` performs them. -/
def dayUpdate (startDate anchor : Date) (depositAmount annualRate : ℚ)
    (depositFrequency compoundFrequency : String) (date : Date) (balance : ℚ) : ℚ :=
  let b1 := if 0 < depositAmount ∧ isEventDay date startDate depositFrequency = true
    then balance + depositAmount else balance
  if isEventDay date anchor compoundFrequency = true
    then applyInterest b1 annualRate else b1

/-- Day number of the first of the month with linear month index `t`
(month `t % 12` of year `t / 12`); used to compare dates month by month. -/
def monthStart (t : Int) : Int :=
  daysFromYear (t / 12) + monthOffset (t / 12) (t % 12)

/-! ### Calendar facts: the two conversion directions are mutually inverse -/

theorem daysInMonth_bounds (y m : Int) (h0 : 0 ≤ m) (h1 : m ≤ 11) :
    28 ≤ daysInMonth y m ∧ daysInMonth y m ≤ 31 := by
  unfold daysInMonth
  interval_cases m <;> simp <;> split <;> omega

theorem monthOffset_zero (y : Int) : monthOffset y 0 = 0 := rfl

theorem monthOffset_step (y m : Int) (h0 : 0 ≤ m) (h1 : m ≤ 10) :
    monthOffset y (m + 1) = monthOffset y m + daysInMonth y m := by
  unfold monthOffset daysInMonth
  interval_cases m <;> simp <;> split <;> omega

theorem monthOffset_last (y : Int) :
    monthOffset y 11 + daysInMonth y 11 = yearLength y := by
  unfold monthOffset daysInMonth yearLength
  norm_num
  split <;> omega

theorem leapCount_succ (y : Int) :
    leapCount (y + 1) = leapCount y + (if isLeap y then 1 else 0) := by
  unfold leapCount isLeap
  simp only [Bool.or_eq_true, Bool.and_eq_true, beq_iff_eq, bne_iff_ne]
  split_ifs <;> omega

theorem daysFromYear_succ (y : Int) :
    daysFromYear (y + 1) = daysFromYear y + yearLength y := by
  unfold daysFromYear yearLength
  rw [leapCount_succ]
  split <;> ring

theorem yearLength_pos (y : Int) : 365 ≤ yearLength y := by
  unfold yearLength; split <;> omega

theorem monthScan_spec (fuel : Nat) :
    ∀ y m rem : Int, 0 ≤ m → 0 ≤ rem → m + fuel = 11 →
      monthOffset y m + rem + 1 ≤ yearLength y →
      toDays (monthScan fuel y m rem) = daysFromYear y + monthOffset y m + rem ∧
      Valid (monthScan fuel y m rem) := by
  induction fuel with
  | zero =>
      intro y m rem hm0 hrem hm hbound
      have hm11 : m = 11 := by omega
      subst hm11
      have hlast := monthOffset_last y
      have heq : monthScan 0 y 11 rem = ⟨y, 11, rem + 1⟩ := rfl
      rw [heq]
      constructor
      · simp only [toDays]; omega
      · unfold Valid
        dsimp only
        omega
  | succ fuel ih =>
      intro y m rem hm0 hrem hm hbound
      have hm10 : m ≤ 10 := by omega
      have hstep := monthOffset_step y m hm0 hm10
      have hdim := daysInMonth_bounds y m hm0 (by omega)
      simp only [monthScan]
      split_ifs with hlt
      · constructor
        · simp only [toDays]; omega
        · unfold Valid
          dsimp only
          omega
      · have hrem' : daysInMonth y m ≤ rem := by omega
        have := ih y (m + 1) (rem - daysInMonth y m) (by omega) (by omega) (by omega)
          (by omega)
        refine ⟨?_, this.2⟩
        rw [this.1]
        omega

theorem yearScan_spec (fuel : Nat) :
    ∀ y rem : Int, 0 ≤ rem → rem < daysFromYear (y + fuel + 1) - daysFromYear y →
      toDays (yearScan fuel y rem) = daysFromYear y + rem ∧
      Valid (yearScan fuel y rem) := by
  induction fuel with
  | zero =>
      intro y rem hrem hbound
      have h1 : daysFromYear (y + 1) = daysFromYear y + yearLength y := daysFromYear_succ y
      have hbound' : rem < daysFromYear (y + 1) - daysFromYear y := by
        simpa using hbound
      have hb : rem < yearLength y := by omega
      have := monthScan_spec 11 y 0 rem (by omega) hrem (by omega)
        (by rw [monthOffset_zero]; omega)
      simpa [yearScan, monthOffset_zero] using this
  | succ fuel ih =>
      intro y rem hrem hbound
      simp only [yearScan]
      split_ifs with hb
      · have := monthScan_spec 11 y 0 rem (by omega) hrem (by omega)
          (by rw [monthOffset_zero]; omega)
        simpa [monthOffset_zero] using this
      · have hsucc : daysFromYear (y + 1) = daysFromYear y + yearLength y := daysFromYear_succ y
        have hb' : rem - yearLength y <
            daysFromYear ((y + 1) + fuel + 1) - daysFromYear (y + 1) := by
          have : ((y + 1) + (fuel : Int) + 1) = (y + (fuel + 1 : Nat) + 1) := by push_cast; ring
          rw [this, hsucc]
          push_cast at hbound ⊢
          omega
        have := ih (y + 1) (rem - yearLength y) (by omega) hb'
        rw [hsucc] at this
        exact ⟨by rw [this.1]; omega, this.2⟩

theorem leapCount_add_400 (y k : Int) : leapCount (y + 400 * k) = leapCount y + 97 * k := by
  unfold leapCount
  have h4 : (y + 400 * k - 1) / 4 = (y - 1) / 4 + 100 * k := by
    rw [show y + 400 * k - 1 = (y - 1) + (100 * k) * 4 by ring,
      Int.add_mul_ediv_right _ _ (by norm_num : (4 : Int) ≠ 0)]
  have h100 : (y + 400 * k - 1) / 100 = (y - 1) / 100 + 4 * k := by
    rw [show y + 400 * k - 1 = (y - 1) + (4 * k) * 100 by ring,
      Int.add_mul_ediv_right _ _ (by norm_num : (100 : Int) ≠ 0)]
  have h400 : (y + 400 * k - 1) / 400 = (y - 1) / 400 + k := by
    rw [show y + 400 * k - 1 = (y - 1) + k * 400 by ring,
      Int.add_mul_ediv_right _ _ (by norm_num : (400 : Int) ≠ 0)]
  rw [h4, h100, h400]
  ring

theorem daysFromYear_add_400 (y k : Int) :
    daysFromYear (y + 400 * k) = daysFromYear y + 146097 * k := by
  unfold daysFromYear
  rw [leapCount_add_400]
  ring

theorem daysFromYear_2000 : daysFromYear 2000 = 10957 := by decide

/-- Round trip: reading a day number back as a calendar date and re-encoding
it yields the same day number. -/
theorem toDays_ofDays (z : Int) : toDays (ofDays z) = z := by
  unfold ofDays
  have hdiv := Int.ediv_add_emod (z - 10957) 146097
  have hnn : 0 ≤ (z - 10957) % 146097 := Int.emod_nonneg _ (by norm_num)
  have hlt : (z - 10957) % 146097 < 146097 := Int.emod_lt_of_pos _ (by norm_num)
  set era := (z - 10957) / 146097 with hera
  set doe := (z - 10957) % 146097 with hdoe
  have hbound : doe < daysFromYear ((2000 + 400 * era) + 399 + 1) -
      daysFromYear (2000 + 400 * era) := by
    have : ((2000 + 400 * era) + 399 + 1 : Int) = (2000 + 400 * era) + 400 * 1 := by ring
    rw [this, daysFromYear_add_400]
    omega
  have hspec := yearScan_spec 399 (2000 + 400 * era) doe hnn (by push_cast; exact hbound)
  rw [hspec.1]
  have h2000 : daysFromYear (2000 + 400 * era) = 10957 + 146097 * era := by
    rw [daysFromYear_add_400, daysFromYear_2000]
  omega

/-- Reading a day number back as a calendar date yields canonical components. -/
theorem ofDays_valid (z : Int) : Valid (ofDays z) := by
  unfold ofDays
  have hnn : 0 ≤ (z - 10957) % 146097 := Int.emod_nonneg _ (by norm_num)
  set era := (z - 10957) / 146097 with hera
  set doe := (z - 10957) % 146097 with hdoe
  have hlt : doe < 146097 := Int.emod_lt_of_pos _ (by norm_num)
  have hbound : doe < daysFromYear ((2000 + 400 * era) + 399 + 1) -
      daysFromYear (2000 + 400 * era) := by
    have : ((2000 + 400 * era) + 399 + 1 : Int) = (2000 + 400 * era) + 400 * 1 := by ring
    rw [this, daysFromYear_add_400]
    omega
  exact (yearScan_spec 399 (2000 + 400 * era) doe hnn (by push_cast; exact hbound)).2

theorem jsMin_eq_min (a b : Int) : jsMin a b = min a b :=
  (min_def a b).symm

theorem toDays_addDays (d : Date) (n : Int) : toDays (addDays d n) = toDays d + n := by
  simp [addDays, toDays_ofDays]

theorem addDays_ofDays (w n : Int) : addDays (ofDays w) n = ofDays (w + n) := by
  simp [addDays, toDays_ofDays]

theorem daysBetween_addDays (d : Date) (n : Int) : daysBetween d (addDays d n) = n := by
  simp [daysBetween, toDays_addDays]

/-! ### Month arithmetic: `addMonths` moves strictly forward in time -/

theorem monthStart_step (t : Int) :
    monthStart (t + 1) = monthStart t + daysInMonth (t / 12) (t % 12) := by
  rcases lt_or_ge (t % 12) 11 with hlt | hge
  · have h1 : (t + 1) / 12 = t / 12 := by omega
    have h2 : (t + 1) % 12 = t % 12 + 1 := by omega
    unfold monthStart
    rw [h1, h2, monthOffset_step _ _ (Int.emod_nonneg t (by norm_num)) (by omega)]
    ring
  · have h11 : t % 12 = 11 := by omega
    have h1 : (t + 1) / 12 = t / 12 + 1 := by omega
    have h2 : (t + 1) % 12 = 0 := by omega
    unfold monthStart
    rw [h1, h2, h11, monthOffset_zero, daysFromYear_succ, ← monthOffset_last]
    ring

theorem monthStart_add (t : Int) (k : Nat) :
    monthStart t + 28 * k ≤ monthStart (t + k) := by
  induction k with
  | zero => simp
  | succ k ih =>
      have hstep := monthStart_step (t + k)
      have hd := daysInMonth_bounds ((t + k) / 12) ((t + k) % 12)
        (Int.emod_nonneg _ (by norm_num)) (by omega)
      have hc : (t + ((k : Int) + 1)) = (t + k) + 1 := by ring
      push_cast at ih ⊢
      rw [hc]
      omega

theorem toDays_eq_monthStart (d : Date) (hm0 : 0 ≤ d.month) (hm1 : d.month ≤ 11) :
    toDays d = monthStart (12 * d.year + d.month) + d.day - 1 := by
  unfold toDays monthStart
  have h1 : (12 * d.year + d.month) / 12 = d.year := by omega
  have h2 : (12 * d.year + d.month) % 12 = d.month := by omega
  rw [h1, h2]

/-- Adding at least one month moves the day number strictly forward. -/
theorem toDays_lt_addMonths (d : Date) (hd : Valid d) (n : Int) (hn : 1 ≤ n) :
    toDays d < toDays (addMonths d n) := by
  obtain ⟨hm0, hm1, hd1, hd2⟩ := hd
  set t := 12 * d.year + d.month with ht
  have hY : 12 * (d.year + (d.month + n) / 12) + ((d.month + n) % 12 + 12) % 12 = t + n := by
    omega
  have hM0 : 0 ≤ ((d.month + n) % 12 + 12) % 12 := by omega
  have hM1 : ((d.month + n) % 12 + 12) % 12 ≤ 11 := by omega
  have htarget : toDays (addMonths d n) =
      monthStart (t + n) + jsMin d.day
        (daysInMonth (d.year + (d.month + n) / 12) (((d.month + n) % 12 + 12) % 12)) - 1 := by
    rw [show addMonths d n = ⟨d.year + (d.month + n) / 12, ((d.month + n) % 12 + 12) % 12,
        jsMin d.day (daysInMonth (d.year + (d.month + n) / 12)
          (((d.month + n) % 12 + 12) % 12))⟩ from rfl]
    rw [toDays_eq_monthStart ⟨_, _, _⟩ hM0 hM1]
    dsimp only
    rw [hY]
  have hsrc : toDays d = monthStart t + d.day - 1 := toDays_eq_monthStart d hm0 hm1
  have hstep : monthStart (t + 1) = monthStart t + daysInMonth (t / 12) (t % 12) := monthStart_step t
  have hsame : t / 12 = d.year ∧ t % 12 = d.month := by omega
  have hmono : monthStart (t + 1) + 28 * ((n - 1).toNat : Int) ≤ monthStart (t + n) := by
    have := monthStart_add (t + 1) (n - 1).toNat
    have hcast : (t + 1) + ((n - 1).toNat : Int) = t + n := by omega
    rw [hcast] at this
    exact this
  have hdimT : 28 ≤ daysInMonth (d.year + (d.month + n) / 12) (((d.month + n) % 12 + 12) % 12) :=
    (daysInMonth_bounds _ _ hM0 hM1).1
  have hjs : 1 ≤ jsMin d.day
      (daysInMonth (d.year + (d.month + n) / 12) (((d.month + n) % 12 + 12) % 12)) := by
    unfold jsMin
    split <;> omega
  rw [hsrc, htarget]
  rw [hsame.1, hsame.2] at hstep
  omega

/-! ### Loop facts -/

section LoopFacts

variable (endN : Int) (sd anchor : Date) (dep rate : ℚ) (df cf : String)

/-- Labels and series are pushed in lockstep, so their lengths agree for
every fuel, date and balance. -/
theorem simLoop_length_eq : ∀ (fuel : Nat) (date : Date) (b : ℚ),
    (simLoop endN sd anchor dep rate df cf fuel date b).1.length
      = (simLoop endN sd anchor dep rate df cf fuel date b).2.1.length := by
  intro fuel
  induction fuel with
  | zero => intro date b; rfl
  | succ fuel ih =>
      intro date b
      simp only [simLoop]
      split
      · simp [ih]
      · rfl

/-- Length of the series produced along the day-number track. -/
theorem simLoop_length : ∀ (fuel : Nat) (w : Int) (b : ℚ),
    (simLoop endN sd anchor dep rate df cf fuel (ofDays w) b).1.length
      = min fuel (endN + 1 - w).toNat := by
  intro fuel
  induction fuel with
  | zero => intro w b; simp [simLoop]
  | succ fuel ih =>
      intro w b
      simp only [simLoop, toDays_ofDays, addDays_ofDays]
      split_ifs <;> simp only [List.length_cons, List.length_nil, ih] <;> omega

/-- With no deposits and a positive rate, the final balance is the starting
balance multiplied by `(1 + rate / 100)` once per compounding event day. -/
theorem simLoop_final_pow (hrate : 0 < rate) : ∀ (fuel : Nat) (date : Date) (b : ℚ),
    (simLoop endN sd anchor 0 rate df cf fuel date b).2.2
      = b * (1 + rate / 100) ^ countEventDays endN anchor cf fuel date := by
  intro fuel
  induction fuel with
  | zero => intro date b; simp [simLoop, countEventDays]
  | succ fuel ih =>
      intro date b
      have hdep : ¬ (0 < (0 : ℚ) ∧ isEventDay date sd df = true) := by
        rintro ⟨h, -⟩
        exact lt_irrefl 0 h
      have happ : applyInterest b rate = b * (1 + rate / 100) := by
        unfold applyInterest
        rw [if_neg (not_le.mpr hrate)]
      simp only [simLoop, countEventDays, if_neg hdep]
      split_ifs with hguard hev
      · rw [ih, happ, pow_add, pow_one]
        ring
      · rw [ih, Nat.zero_add]
      · simp [pow_zero]

theorem simLoop_succ (fuel : Nat) (date : Date) (b : ℚ) :
    simLoop endN sd anchor dep rate df cf (fuel + 1) date b =
      if toDays date ≤ endN then
        (date :: (simLoop endN sd anchor dep rate df cf fuel (addDays date 1)
            (dayUpdate sd anchor dep rate df cf date b)).1,
         round2 (dayUpdate sd anchor dep rate df cf date b) ::
            (simLoop endN sd anchor dep rate df cf fuel (addDays date 1)
              (dayUpdate sd anchor dep rate df cf date b)).2.1,
         (simLoop endN sd anchor dep rate df cf fuel (addDays date 1)
            (dayUpdate sd anchor dep rate df cf date b)).2.2)
      else ([], [], b) := rfl

theorem runningBalances_succ (fuel : Nat) (date : Date) (b : ℚ) :
    runningBalances endN sd anchor dep rate df cf (fuel + 1) date b =
      if toDays date ≤ endN then
        (dayUpdate sd anchor dep rate df cf date b ::
            (runningBalances endN sd anchor dep rate df cf fuel (addDays date 1)
              (dayUpdate sd anchor dep rate df cf date b)).1,
         (runningBalances endN sd anchor dep rate df cf fuel (addDays date 1)
            (dayUpdate sd anchor dep rate df cf date b)).2)
      else ([], b) := rfl

/-- The recorded series is exactly the unrounded running-balance sequence
mapped through the 2-decimal rounding, and the final balance is the last
unrounded accumulator value: rounding never feeds back into the loop. -/
theorem simLoop_raw : ∀ (fuel : Nat) (date : Date) (b : ℚ),
    (simLoop endN sd anchor dep rate df cf fuel date b).2.1
      = ((runningBalances endN sd anchor dep rate df cf fuel date b).1).map round2 ∧
    (simLoop endN sd anchor dep rate df cf fuel date b).2.2
      = (runningBalances endN sd anchor dep rate df cf fuel date b).2 := by
  intro fuel
  induction fuel with
  | zero => intro date b; exact ⟨rfl, rfl⟩
  | succ fuel ih =>
      intro date b
      rw [simLoop_succ, runningBalances_succ]
      split_ifs with hg
      · refine ⟨?_, (ih _ _).2⟩
        simp [List.map_cons, (ih _ _).1]
      · exact ⟨rfl, rfl⟩

/-- A run that records no series point leaves the balance untouched. -/
theorem simLoop_nil_final : ∀ (fuel : Nat) (date : Date) (b : ℚ),
    (simLoop endN sd anchor dep rate df cf fuel date b).2.1 = [] →
    (simLoop endN sd anchor dep rate df cf fuel date b).2.2 = b := by
  intro fuel
  cases fuel with
  | zero => intro date b h; rfl
  | succ fuel =>
      intro date b h
      rw [simLoop_succ] at h ⊢
      split_ifs at h ⊢ with hg <;> simp_all

/-- The last recorded series point is the final balance rounded to
2 decimal places. -/
theorem simLoop_getLast : ∀ (fuel : Nat) (date : Date) (b : ℚ),
    (simLoop endN sd anchor dep rate df cf fuel date b).2.1 ≠ [] →
    (simLoop endN sd anchor dep rate df cf fuel date b).2.1.getLast?
      = some (round2 (simLoop endN sd anchor dep rate df cf fuel date b).2.2) := by
  intro fuel
  induction fuel with
  | zero => intro date b h; exact absurd rfl h
  | succ fuel ih =>
      intro date b h
      rw [simLoop_succ] at h ⊢
      split_ifs at h ⊢ with hg
      · cases hr : (simLoop endN sd anchor dep rate df cf fuel (addDays date 1)
            (dayUpdate sd anchor dep rate df cf date b)).2.1 with
        | nil =>
            have hfin := simLoop_nil_final endN sd anchor dep rate df cf fuel
              (addDays date 1) (dayUpdate sd anchor dep rate df cf date b) hr
            simp [hr, hfin]
        | cons x xs =>
            have hne : (simLoop endN sd anchor dep rate df cf fuel (addDays date 1)
                (dayUpdate sd anchor dep rate df cf date b)).2.1 ≠ [] := by
              rw [hr]; exact List.cons_ne_nil _ _
            have hlast := ih (addDays date 1) (dayUpdate sd anchor dep rate df cf date b) hne
            rw [hr] at hlast
            simp [hr, List.getLast?_cons_cons, hlast]
      · exact absurd rfl h

end LoopFacts

/-! ### The claims -/

/-- C2: for every valid input (integer `timeValue ≥ 1`, `timeUnit` one of
`"weeks"`, `"months"`, `"years"`) and every start day, `simulateGrowth`
returns labels and series of length `daysBetween startDate endDate + 1`,
where `endDate` is the returned end date (the start shifted by
`timeValue`/`timeUnit`). -/
theorem c2_series_length (today : Int) (input : SimulationInput)
    (h1 : 1 ≤ input.timeValue)
    (h2 : input.timeUnit = "weeks" ∨ input.timeUnit = "months" ∨ input.timeUnit = "years") :
    (simulateGrowth today input).labels.length
      = (daysBetween (ofDays today) (simulateGrowth today input).endDate).toNat + 1 ∧
    (simulateGrowth today input).series.length
      = (daysBetween (ofDays today) (simulateGrowth today input).endDate).toNat + 1 := by
  have hval := ofDays_valid today
  have hend : today ≤ toDays (getEndDate (ofDays today) input.timeValue input.timeUnit) := by
    rcases h2 with h | h | h <;> rw [h] <;> unfold getEndDate
    · rw [if_pos rfl, toDays_addDays, toDays_ofDays]
      omega
    · rw [if_neg (by decide), if_pos rfl]
      have := toDays_lt_addMonths (ofDays today) hval input.timeValue h1
      rw [toDays_ofDays] at this
      omega
    · rw [if_neg (by decide), if_neg (by decide)]
      unfold addYears
      have := toDays_lt_addMonths (ofDays today) hval (input.timeValue * 12) (by omega)
      rw [toDays_ofDays] at this
      omega
  have hlen := simLoop_length (toDays (getEndDate (ofDays today) input.timeValue input.timeUnit))
    (ofDays today) (getCompoundAnchor (ofDays today) input.compoundFrequency)
    input.depositAmount input.annualRate input.depositFrequency input.compoundFrequency
    ((toDays (getEndDate (ofDays today) input.timeValue input.timeUnit)
        - toDays (ofDays today) + 1).toNat)
    today input.startingAmount
  have hleq := simLoop_length_eq
    (toDays (getEndDate (ofDays today) input.timeValue input.timeUnit))
    (ofDays today) (getCompoundAnchor (ofDays today) input.compoundFrequency)
    input.depositAmount input.annualRate input.depositFrequency input.compoundFrequency
    ((toDays (getEndDate (ofDays today) input.timeValue input.timeUnit)
        - toDays (ofDays today) + 1).toNat)
    (ofDays today) input.startingAmount
  have hlab : (simulateGrowth today input).labels.length
      = (daysBetween (ofDays today) (simulateGrowth today input).endDate).toNat + 1 := by
    simp only [simulateGrowth, normalizeDate]
    rw [hlen]
    simp only [daysBetween, toDays_ofDays]
    omega
  refine ⟨hlab, ?_⟩
  have : (simulateGrowth today input).labels.length
      = (simulateGrowth today input).series.length := by
    simp only [simulateGrowth, normalizeDate]
    exact hleq
  rw [← this]
  exact hlab

set_option maxRecDepth 40000 in
set_option maxHeartbeats 1000000 in
/-- C2 witness: a one-week run has 8 points, matching the day count. -/
theorem c2_series_length_witness :
    ((1 : Int) ≤ (⟨1000, 0, "monthly", 0, "monthly", 1, "weeks"⟩ : SimulationInput).timeValue ∧
      ((⟨1000, 0, "monthly", 0, "monthly", 1, "weeks"⟩ : SimulationInput).timeUnit = "weeks" ∨
        (⟨1000, 0, "monthly", 0, "monthly", 1, "weeks"⟩ : SimulationInput).timeUnit = "months" ∨
        (⟨1000, 0, "monthly", 0, "monthly", 1, "weeks"⟩ : SimulationInput).timeUnit = "years")) ∧
    (simulateGrowth 19723 ⟨1000, 0, "monthly", 0, "monthly", 1, "weeks"⟩).labels.length
      = (daysBetween (ofDays 19723)
          (simulateGrowth 19723 ⟨1000, 0, "monthly", 0, "monthly", 1, "weeks"⟩).endDate).toNat
          + 1 :=
  ⟨⟨by decide, Or.inl rfl⟩,
    (c2_series_length 19723 ⟨1000, 0, "monthly", 0, "monthly", 1, "weeks"⟩
      (by decide) (Or.inl rfl)).1⟩

/-- C3: interest fires on the very first simulated day even though the
compound anchor lies one period in the future: the weekly anchor sits 7 days
ahead (`daysBetween anchor startDate = -7`, a multiple of 7, so the weekly
predicate holds at `startDate`), and the monthly predicate holds at
`startDate` whenever the start day-of-month is at most the length of the
following month (the clamped anchor day then equals the start day). -/
theorem c3_first_day_compounding :
    (∀ today : Int,
      daysBetween (getCompoundAnchor (ofDays today) "weekly") (ofDays today) = -7) ∧
    (∀ today : Int,
      isEventDay (ofDays today) (getCompoundAnchor (ofDays today) "weekly") "weekly" = true) ∧
    (∀ today : Int,
      (ofDays today).day ≤ daysInMonth (addMonths (ofDays today) 1).year
          (addMonths (ofDays today) 1).month →
      isEventDay (ofDays today) (getCompoundAnchor (ofDays today) "monthly") "monthly"
        = true) := by
  refine ⟨fun today => ?_, fun today => ?_, fun today hle => ?_⟩
  · unfold getCompoundAnchor
    rw [if_pos rfl]
    unfold daysBetween
    rw [toDays_addDays]
    omega
  · unfold isEventDay
    rw [if_neg (by decide), if_pos rfl]
    unfold getCompoundAnchor
    rw [if_pos rfl]
    unfold isWeeklyEvent daysBetween
    rw [toDays_addDays]
    have h7 : toDays (ofDays today) - (toDays (ofDays today) + 7) = -7 := by ring
    rw [h7]
    decide
  · unfold isEventDay
    rw [if_neg (by decide), if_neg (by decide)]
    unfold getCompoundAnchor
    rw [if_neg (by decide), if_pos rfl]
    obtain ⟨hm0, hm1, hd1, hd2⟩ := ofDays_valid today
    have hday : (addMonths (ofDays today) 1).day
        = jsMin (ofDays today).day
            (daysInMonth (addMonths (ofDays today) 1).year
              (addMonths (ofDays today) 1).month) := rfl
    have h1 : jsMin (ofDays today).day
        (daysInMonth (addMonths (ofDays today) 1).year (addMonths (ofDays today) 1).month)
        = (ofDays today).day := by
      unfold jsMin; rw [if_pos hle]
    have h2 : jsMin (ofDays today).day
        (daysInMonth (ofDays today).year (ofDays today).month) = (ofDays today).day := by
      unfold jsMin; rw [if_pos hd2]
    unfold isMonthlyEvent
    rw [hday, h1, h2]
    simp

set_option maxRecDepth 40000 in
/-- C3 witness: on 2024-01-01 (day number 19723) the monthly predicate's
precondition holds and interest fires on the first day. -/
theorem c3_first_day_compounding_witness :
    (ofDays 19723).day ≤ daysInMonth (addMonths (ofDays 19723) 1).year
        (addMonths (ofDays 19723) 1).month ∧
    isEventDay (ofDays 19723) (getCompoundAnchor (ofDays 19723) "monthly") "monthly" = true :=
  ⟨by decide, c3_first_day_compounding.2.2 19723 (by decide)⟩

/-- C5: every frequency tag other than `"weekday"` and `"weekly"` — however
nonsensical — behaves exactly as the monthly predicate; no tag is rejected,
and every run still yields a well-formed result (labels and series of equal
length). -/
theorem c5_default_monthly :
    (∀ (freq : String) (date anchor : Date), freq ≠ "weekday" → freq ≠ "weekly" →
      isEventDay date anchor freq = isMonthlyEvent date anchor) ∧
    (∀ (today : Int) (input : SimulationInput),
      (simulateGrowth today input).labels.length
        = (simulateGrowth today input).series.length) := by
  constructor
  · intro freq date anchor h1 h2
    unfold isEventDay
    rw [if_neg h1, if_neg h2]
  · intro today input
    simp only [simulateGrowth, normalizeDate]
    exact simLoop_length_eq _ _ _ _ _ _ _ _ _ _

/-- C5 witness: the tag `"quarterly"` is interpreted as monthly. -/
theorem c5_default_monthly_witness :
    (("quarterly" : String) ≠ "weekday" ∧ ("quarterly" : String) ≠ "weekly") ∧
    isEventDay ⟨2024, 5, 15⟩ ⟨2024, 2, 15⟩ "quarterly"
      = isMonthlyEvent ⟨2024, 5, 15⟩ ⟨2024, 2, 15⟩ :=
  ⟨⟨by decide, by decide⟩,
    c5_default_monthly.1 "quarterly" ⟨2024, 5, 15⟩ ⟨2024, 2, 15⟩ (by decide) (by decide)⟩

/-- C6: the weekly predicate holds at the anchor plus any multiple of 7 days
and fails at every other offset. -/
theorem c6_weekly_periodicity (a : Date) (k : Nat) :
    isWeeklyEvent (addDays a (7 * k)) a = true ∧
    ∀ r : Nat, 1 ≤ r → r ≤ 6 → isWeeklyEvent (addDays a (7 * k + r)) a = false := by
  constructor
  · unfold isWeeklyEvent
    rw [daysBetween_addDays]
    simp only [beq_iff_eq]
    omega
  · intro r h1 h6
    unfold isWeeklyEvent
    rw [daysBetween_addDays]
    simp only [beq_eq_false_iff_ne, ne_eq]
    omega

/-- C6 witness: 14 days after an anchor is a weekly event, 17 days is not. -/
theorem c6_weekly_periodicity_witness :
    ((1 : Nat) ≤ 3 ∧ (3 : Nat) ≤ 6) ∧
    isWeeklyEvent (addDays ⟨2024, 0, 1⟩ (7 * (2 : Nat))) ⟨2024, 0, 1⟩ = true ∧
    isWeeklyEvent (addDays ⟨2024, 0, 1⟩ (7 * (2 : Nat) + (3 : Nat))) ⟨2024, 0, 1⟩ = false :=
  ⟨⟨by decide, by decide⟩, (c6_weekly_periodicity ⟨2024, 0, 1⟩ 2).1,
    (c6_weekly_periodicity ⟨2024, 0, 1⟩ 2).2 3 (by decide) (by decide)⟩

/-- C7: the monthly predicate is the clamped day-of-month comparison: it
holds exactly when the candidate day equals
`min anchor.day (daysInMonth candidate.year candidate.month)`; with an anchor
on day 31 it matches day 29 in a leap February, day 28 otherwise, and day 30
in the four 30-day months. -/
theorem c7_monthly_clamping :
    (∀ date anchor : Date,
      isMonthlyEvent date anchor = true ↔
        date.day = min anchor.day (daysInMonth date.year date.month)) ∧
    (∀ (y d : Int) (anchor : Date), anchor.day = 31 →
      (isMonthlyEvent ⟨y, 1, d⟩ anchor = true ↔ d = if isLeap y then 29 else 28)) ∧
    (∀ (y m d : Int) (anchor : Date), anchor.day = 31 →
      m = 3 ∨ m = 5 ∨ m = 8 ∨ m = 10 →
      (isMonthlyEvent ⟨y, m, d⟩ anchor = true ↔ d = 30)) := by
  refine ⟨fun date anchor => ?_, fun y d anchor h31 => ?_, fun y m d anchor h31 hm => ?_⟩
  · unfold isMonthlyEvent
    rw [jsMin_eq_min]
    exact beq_iff_eq
  · unfold isMonthlyEvent
    rw [h31]
    have hdim : daysInMonth y 1 = if isLeap y then 29 else 28 := by
      unfold daysInMonth; rw [if_pos rfl]
    dsimp only
    rw [hdim]
    unfold jsMin
    split_ifs <;> simp [beq_iff_eq] <;> omega
  · have hdim : daysInMonth y m = 30 := by
      unfold daysInMonth
      rcases hm with h | h | h | h <;> subst h <;> norm_num
    unfold isMonthlyEvent
    rw [h31]
    dsimp only
    rw [hdim]
    unfold jsMin
    norm_num

/-- C7 witness: an anchor on January 31 matches February 29 of the leap year
2024. -/
theorem c7_monthly_clamping_witness :
    ((⟨2024, 0, 31⟩ : Date).day = 31) ∧
    (isMonthlyEvent ⟨2024, 1, 29⟩ ⟨2024, 0, 31⟩ = true
      ↔ (29 : Int) = if isLeap 2024 then 29 else 28) :=
  ⟨rfl, c7_monthly_clamping.2.1 2024 29 ⟨2024, 0, 31⟩ rfl⟩

/-- C8: `addMonths` computes the target year and month by floor-dividing the
shifted month index by 12 (also correct for negative shifts: the target
year/month is the unique pair with `12 * Y + M = 12 * y + m + n` and
`0 ≤ M < 12`), clamps the day to the target month's length (never
overflowing into the following month), and in particular maps January 31
one month ahead to the last day of February as the leap-year rule
(divisible by 4, centuries only when divisible by 400) dictates. -/
theorem c8_addMonths :
    (∀ (date : Date) (n : Int),
      12 * (addMonths date n).year + (addMonths date n).month
          = 12 * date.year + date.month + n ∧
      0 ≤ (addMonths date n).month ∧ (addMonths date n).month ≤ 11 ∧
      (addMonths date n).day
          = min date.day (daysInMonth (addMonths date n).year (addMonths date n).month) ∧
      (addMonths date n).day
          ≤ daysInMonth (addMonths date n).year (addMonths date n).month) ∧
    (∀ y : Int, addMonths ⟨y, 0, 31⟩ 1 = ⟨y, 1, if isLeap y then 29 else 28⟩) ∧
    (∀ y : Int, isLeap y = true ↔ ((y % 4 = 0 ∧ y % 100 ≠ 0) ∨ y % 400 = 0)) := by
  refine ⟨fun date n => ?_, fun y => ?_, fun y => ?_⟩
  · unfold addMonths
    dsimp only
    refine ⟨by omega, by omega, by omega, by rw [jsMin_eq_min], ?_⟩
    rw [jsMin_eq_min]
    exact min_le_right _ _
  · norm_num [addMonths, Date.mk.injEq]
    have hfeb : daysInMonth y 1 = if isLeap y then 29 else 28 := by
      unfold daysInMonth; rw [if_pos rfl]
    rw [hfeb]
    unfold jsMin
    split_ifs <;> omega
  · unfold isLeap
    simp only [Bool.or_eq_true, Bool.and_eq_true, beq_iff_eq, bne_iff_ne, ne_eq]

/-- C10: for monthly compounding the events follow the clamped day of the
anchor (`startDate` advanced one month), not `startDate`'s own day: when the
start day exceeds the following month's length (e.g. January 31), the anchor
day is that month's last day, each event day equals
`min anchor.day (daysInMonth month)`, and no event ever falls on the start
day-of-month; concretely, with a January 31, 2023 start, March 28 is an
event day and March 31 is not. -/
theorem c10_monthly_anchor_shift :
    (∀ s : Date,
      daysInMonth (addMonths s 1).year (addMonths s 1).month < s.day →
      (addMonths s 1).day = daysInMonth (addMonths s 1).year (addMonths s 1).month ∧
      ∀ date : Date, isEventDay date (addMonths s 1) "monthly" = true →
        date.day = min (addMonths s 1).day (daysInMonth date.year date.month) ∧
        date.day ≠ s.day) ∧
    isEventDay ⟨2023, 2, 28⟩ (getCompoundAnchor ⟨2023, 0, 31⟩ "monthly") "monthly" = true ∧
    isEventDay ⟨2023, 2, 31⟩ (getCompoundAnchor ⟨2023, 0, 31⟩ "monthly") "monthly" = false := by
  refine ⟨fun s hlt => ?_, by decide, by decide⟩
  have hday : (addMonths s 1).day
      = jsMin s.day (daysInMonth (addMonths s 1).year (addMonths s 1).month) := rfl
  have hd : (addMonths s 1).day = daysInMonth (addMonths s 1).year (addMonths s 1).month := by
    rw [hday]; unfold jsMin; rw [if_neg (by omega)]
  refine ⟨hd, fun date hev => ?_⟩
  unfold isEventDay at hev
  rw [if_neg (by decide), if_neg (by decide)] at hev
  unfold isMonthlyEvent at hev
  simp only [beq_iff_eq] at hev
  have hle : jsMin (addMonths s 1).day (daysInMonth date.year date.month)
      ≤ (addMonths s 1).day := by
    unfold jsMin; split_ifs <;> omega
  constructor
  · rw [hev, jsMin_eq_min]
  · omega

set_option maxRecDepth 40000 in
set_option maxHeartbeats 4000000 in
/-- C1 counterexample: starting on 2024-01-01 (day number 19723), the
monthly anchor matches 13 times over the one-year horizon (the start day
itself, the first of each of the next 11 months, and the inclusive end day),
so the final balance is exactly 1000 × 1.1¹³, exceeding the claimed
1000 × 1.1¹² by more than 300 — far beyond any 2-decimal rounding
tolerance. -/
theorem c1_growth_counterexample :
    ofDays 19723 = ⟨2024, 0, 1⟩ ∧
    (simulateGrowth 19723 ⟨1000, 10, "monthly", 0, "monthly", 1, "years"⟩).finalBalance
      = 1000 * (11 / 10 : ℚ) ^ 13 ∧
    1000 * (11 / 10 : ℚ) ^ 12 + 300
      < (simulateGrowth 19723 ⟨1000, 10, "monthly", 0, "monthly", 1, "years"⟩).finalBalance := by
  have hfb : (simulateGrowth 19723 ⟨1000, 10, "monthly", 0, "monthly", 1, "years"⟩).finalBalance
      = 1000 * (11 / 10 : ℚ) ^ 13 := by decide
  refine ⟨by decide, hfb, ?_⟩
  rw [hfb]
  norm_num

set_option maxRecDepth 40000 in
set_option maxHeartbeats 8000000 in
/-- C1 (amended): for the scenario startingAmount = 1000, annualRate = 10,
compoundFrequency = "monthly", depositAmount = 0, one year, the balance is
multiplied by 1.10 on each monthly anchor match and the final balance is
exactly 1000 × 1.1ⁿ where n is the number of matches over the inclusive
horizon; n is 13 for a 2024-01-01 start (day 19723) and 12 for a 2024-01-31
start (day 19753), i.e. 12 or 13 depending on the start date. -/
theorem c1_growth_formula :
    (∀ today : Int,
      (simulateGrowth today ⟨1000, 10, "monthly", 0, "monthly", 1, "years"⟩).finalBalance
        = 1000 * (11 / 10 : ℚ)
            ^ compoundEventCount today ⟨1000, 10, "monthly", 0, "monthly", 1, "years"⟩) ∧
    compoundEventCount 19723 ⟨1000, 10, "monthly", 0, "monthly", 1, "years"⟩ = 13 ∧
    compoundEventCount 19753 ⟨1000, 10, "monthly", 0, "monthly", 1, "years"⟩ = 12 := by
  refine ⟨?_, by decide, by decide⟩
  intro today
  have h := simLoop_final_pow
    (toDays (getEndDate (normalizeDate (ofDays today)) 1 "years"))
    (normalizeDate (ofDays today))
    (getCompoundAnchor (normalizeDate (ofDays today)) "monthly")
    10 "monthly" "monthly" (by norm_num)
    ((toDays (getEndDate (normalizeDate (ofDays today)) 1 "years")
        - toDays (normalizeDate (ofDays today)) + 1).toNat)
    (normalizeDate (ofDays today)) 1000
  simp only [simulateGrowth, compoundEventCount]
  rw [h]
  norm_num

set_option maxRecDepth 40000 in
set_option maxHeartbeats 1000000 in
/-- C4 counterexample: with compoundFrequency `"daily"` (neither weekly nor
monthly) and a 10% rate over one week from 2024-01-01, interest is applied
only once (on January 1, the monthly-style match), not on each of the 8
simulated days: every series point is 1100 and the final balance is 1100,
not 1000 × 1.1⁸. -/
theorem c4_daily_counterexample :
    (simulateGrowth 19723 ⟨1000, 10, "daily", 0, "monthly", 1, "weeks"⟩).series
      = List.replicate 8 1100 ∧
    (simulateGrowth 19723 ⟨1000, 10, "daily", 0, "monthly", 1, "weeks"⟩).finalBalance = 1100 ∧
    (1100 : ℚ) ≠ 1000 * (11 / 10 : ℚ) ^ 8 := by
  refine ⟨by decide, by decide, by norm_num⟩

set_option maxRecDepth 40000 in
set_option maxHeartbeats 1000000 in
/-- C4 (amended): a compound frequency tag other than `"weekday"`,
`"weekly"` and `"monthly"` makes the compounding events follow the monthly
predicate anchored at `startDate` itself (roughly one event per month, on
the start's clamped day-of-month) — not an interest application on every
simulated day. -/
theorem c4_default_frequency :
    (∀ (freq : String) (sd date : Date), freq ≠ "weekday" → freq ≠ "weekly" →
      freq ≠ "monthly" →
      isEventDay date (getCompoundAnchor sd freq) freq = isMonthlyEvent date sd) ∧
    (simulateGrowth 19723 ⟨1000, 10, "daily", 0, "monthly", 1, "weeks"⟩).finalBalance
      = 1100 := by
  refine ⟨fun freq sd date h1 h2 h3 => ?_, by decide⟩
  unfold isEventDay getCompoundAnchor
  simp only [if_neg h1, if_neg h2, if_neg h3]

/-- C4 witness: the tag `"daily"` anchors at the start date and behaves as
the monthly predicate. -/
theorem c4_default_frequency_witness :
    (("daily" : String) ≠ "weekday" ∧ ("daily" : String) ≠ "weekly" ∧
      ("daily" : String) ≠ "monthly") ∧
    isEventDay ⟨2024, 0, 2⟩ (getCompoundAnchor ⟨2024, 0, 1⟩ "daily") "daily"
      = isMonthlyEvent ⟨2024, 0, 2⟩ ⟨2024, 0, 1⟩ :=
  ⟨⟨by decide, by decide, by decide⟩,
    c4_default_frequency.1 "daily" ⟨2024, 0, 1⟩ ⟨2024, 0, 2⟩
      (by decide) (by decide) (by decide)⟩

/-- C9: every recorded series point is the unrounded running balance of that
day rounded to 2 decimal places (the rounding never feeds back into the
accumulator), the returned final balance is the unrounded accumulator, and
consequently the last series point is the final balance rounded to
2 decimals. -/
theorem c9_rounded_series (today : Int) (input : SimulationInput) :
    (simulateGrowth today input).series = (runBalances today input).1.map round2 ∧
    (simulateGrowth today input).finalBalance = (runBalances today input).2 ∧
    ((simulateGrowth today input).series ≠ [] →
      (simulateGrowth today input).series.getLast?
        = some (round2 (simulateGrowth today input).finalBalance)) :=
  ⟨(simLoop_raw _ _ _ _ _ _ _ _ _ _).1,
   (simLoop_raw _ _ _ _ _ _ _ _ _ _).2,
   fun hne => simLoop_getLast _ _ _ _ _ _ _ _ _ _ hne⟩

set_option maxRecDepth 40000 in
set_option maxHeartbeats 1000000 in
/-- C9 witness: a one-week run with deposits and weekly compounding ends
with a last series point equal to the rounded final balance. -/
theorem c9_rounded_series_witness :
    (simulateGrowth 19723 ⟨1000, 5, "weekly", 25, "weekday", 1, "weeks"⟩).series ≠ [] ∧
    (simulateGrowth 19723 ⟨1000, 5, "weekly", 25, "weekday", 1, "weeks"⟩).series.getLast?
      = some (round2
          (simulateGrowth 19723 ⟨1000, 5, "weekly", 25, "weekday", 1, "weeks"⟩).finalBalance) :=
  ⟨by decide,
    (c9_rounded_series 19723 ⟨1000, 5, "weekly", 25, "weekday", 1, "weeks"⟩).2.2 (by decide)⟩

/-- C10 witness: starting January 31, 2023, the anchor is the last day of
February and later events avoid day 31. -/
theorem c10_monthly_anchor_shift_witness :
    daysInMonth (addMonths (⟨2023, 0, 31⟩ : Date) 1).year
        (addMonths (⟨2023, 0, 31⟩ : Date) 1).month < (⟨2023, 0, 31⟩ : Date).day ∧
    (addMonths (⟨2023, 0, 31⟩ : Date) 1).day
      = daysInMonth (addMonths (⟨2023, 0, 31⟩ : Date) 1).year
          (addMonths (⟨2023, 0, 31⟩ : Date) 1).month :=
  ⟨by decide, (c10_monthly_anchor_shift.1 ⟨2023, 0, 31⟩ (by decide)).1⟩

end App
